import Mathlib

/-!
Shallow embedding of the Game of Life engine in `src/lib.rs` (crate
`wasm-game-of-life`): a toroidal grid of boolean cells stored in a
`FixedBitSet`, with the B3/S23 transition rule, signed toroidal indexing,
and pattern stamping.

Modelling conventions:
* `u32` values are `Nat`; operations that can wrap in release builds carry
  an explicit `% 2 ^ 32`.  `usize` is 32 bits on the wasm32 target, so it
  wraps the same way.
* `i32` values are `Int`; `wrap32s` is the two's-complement wrap applied
  where the source's `i32` arithmetic could overflow (it is the identity
  on in-range values).  Rust's `%` on `i32` is truncated remainder, i.e.
  `Int.tmod`.
* `FixedBitSet` reads (`cells[idx]`, via `Index`) are bounds-checked and
  return `false` out of range, hence `List.getD idx false`.  Writes
  (`set`, `toggle`) panic out of range; fallible operations therefore
  return `Option`, `none` marking a panic.  Remainder by zero also panics,
  modelled as `none` in `get_index_signed`.
* `Math.random()` is external; the random source of `Universe::new` is
  abstracted as an oracle `rand : Nat → Bool` giving the per-index
  outcome of `Math.random() >= 0.5`.
* Rust `for` loops over `0..n` are embedded as structural recursion on
  the iteration count: `loop (j+1)` performs iterations `0, …, j-1` and
  then iteration `j`, preserving both the order of writes and the point
  at which a panic (if any) occurs.
-/

/-- The state of `struct Universe { width: u32, height: u32, cells: FixedBitSet }`.
`cells` is the bit array, one `Bool` per cell, row-major. -/
structure Universe where
  width : Nat
  height : Nat
  cells : List Bool
deriving DecidableEq, Repr

/-- `FixedBitSet::set(bit, enabled)`: panics (`none`) when `bit` is out of
bounds, otherwise updates the bit. -/
def setBit (cells : List Bool) (idx : Nat) (v : Bool) : Option (List Bool) :=
  if idx < cells.length then some (cells.set idx v) else none

/-- `FixedBitSet::toggle(bit)`: panics (`none`) when `bit` is out of bounds,
otherwise flips the bit. -/
def toggleBit (cells : List Bool) (idx : Nat) : Option (List Bool) :=
  if idx < cells.length then some (cells.set idx (!(cells.getD idx false))) else none

namespace Universe

/-- `fn get_index(&self, row: u32, col: u32) -> usize { (row * self.width + col) as usize }`
with `u32`/`usize` (wasm32) wrapping arithmetic. -/
def get_index (u : Universe) (row col : Nat) : Nat :=
  (row * u.width + col) % 2 ^ 32

/-- Two's-complement wrap of an integer into the `i32` range
`[-2^31, 2^31)`; also the `u32 as i32` bit cast. -/
def wrap32s (x : Int) : Int :=
  (x + 2 ^ 31) % 2 ^ 32 - 2 ^ 31

/-- `fn get_index_signed(&self, row: i32, col: i32) -> usize`: normalizes each
axis by `((v % dim) + dim) % dim` in `i32` arithmetic (`dim` being
`self.height as i32` / `self.width as i32`), then calls `get_index`.
A zero dimension makes `%` panic (remainder by zero), hence `none`. -/
def get_index_signed (u : Universe) (row col : Int) : Option Nat :=
  let h : Int := wrap32s (u.height : Int)
  let w : Int := wrap32s (u.width : Int)
  if h = 0 ∨ w = 0 then none
  else
    some (u.get_index
      (((wrap32s (Int.tmod row h + h)).tmod h % 2 ^ 32).toNat)
      (((wrap32s (Int.tmod col w + w)).tmod w % 2 ^ 32).toNat))

/-- `fn live_neighbor_count(&self, row: u32, col: u32) -> u8`: the four edge
branches (`height - 1` and `+ 1` being `u32` operations) followed by the
eight reads, accumulated in source order NW, N, NE, W, E, SW, S, SE. -/
def live_neighbor_count (u : Universe) (row col : Nat) : Nat :=
  let north := if row = 0 then (u.height + (2 ^ 32 - 1)) % 2 ^ 32 else row - 1
  let south := if row = (u.height + (2 ^ 32 - 1)) % 2 ^ 32 then 0 else (row + 1) % 2 ^ 32
  let west := if col = 0 then (u.width + (2 ^ 32 - 1)) % 2 ^ 32 else col - 1
  let east := if col = (u.width + (2 ^ 32 - 1)) % 2 ^ 32 then 0 else (col + 1) % 2 ^ 32
  (cond (u.cells.getD (u.get_index north west) false) 1 0) +
  (cond (u.cells.getD (u.get_index north col) false) 1 0) +
  (cond (u.cells.getD (u.get_index north east) false) 1 0) +
  (cond (u.cells.getD (u.get_index row west) false) 1 0) +
  (cond (u.cells.getD (u.get_index row east) false) 1 0) +
  (cond (u.cells.getD (u.get_index south west) false) 1 0) +
  (cond (u.cells.getD (u.get_index south col) false) 1 0) +
  (cond (u.cells.getD (u.get_index south east) false) 1 0)

/-- The `match (current_state, live_cnt)` in `tick`, arm by arm in source
order (underpopulation, survival, overpopulation, reproduction, default). -/
def next_state (current_state : Bool) (live_cnt : Nat) : Bool :=
  if current_state = true ∧ live_cnt < 2 then false
  else if current_state = true ∧ (live_cnt = 2 ∨ live_cnt = 3) then true
  else if current_state = true ∧ live_cnt > 3 then false
  else if current_state = false ∧ live_cnt = 3 then true
  else current_state

/-- One inner-loop iteration of `tick`: reads the pre-tick grid `u.cells`,
writes the next-generation buffer. -/
def tickCell (u : Universe) (next : List Bool) (row col : Nat) : Option (List Bool) :=
  setBit next (u.get_index row col)
    (next_state (u.cells.getD (u.get_index row col) false) (u.live_neighbor_count row col))

/-- `for col in 0..self.width` of `tick`, for a fixed `row`: iterations
`0, …, j-1` in order. -/
def tickCols (u : Universe) (row : Nat) : Nat → List Bool → Option (List Bool)
  | 0, next => some next
  | j + 1, next => (u.tickCols row j next).bind fun cs => u.tickCell cs row j

/-- `for row in 0..self.height` of `tick`: rows `0, …, i-1` in order. -/
def tickRows (u : Universe) : Nat → List Bool → Option (List Bool)
  | 0, next => some next
  | i + 1, next => (u.tickRows i next).bind fun cs => u.tickCols i u.width cs

/-- `pub fn tick(&mut self)`: clones the cells into a second buffer,
rewrites every cell of the buffer from the pre-tick grid, then commits the
buffer.  (The `Timer` wrapper only logs to the console and has no effect
on the state.) -/
def tick (u : Universe) : Option Universe :=
  (u.tickRows u.height u.cells).map fun next => { u with cells := next }

/-- `pub fn new(width: u32, height: u32) -> Universe`: a `width * height`
(wrapping `u32` product) bit grid, each bit drawn from the random oracle. -/
def new (width height : Nat) (rand : Nat → Bool) : Universe :=
  { width := width
    height := height
    cells := (List.range ((width * height) % 2 ^ 32)).map rand }

/-- The 96-entry `copperhead` bitmap of `new_copperhead`, transcribed
row-major (12 rows of 8). -/
def copperhead : List Bool :=
  [false, true, true, false, false, true, true, false,
   false, false, false, true, true, false, false, false,
   false, false, false, true, true, false, false, false,
   true, false, true, false, false, true, false, true,
   true, false, false, false, false, false, false, true,
   false, false, false, false, false, false, false, false,
   true, false, false, false, false, false, false, true,
   false, true, true, false, false, true, true, false,
   false, false, true, true, true, true, false, false,
   false, false, false, false, false, false, false, false,
   false, false, true, true, false, false, false, false,
   false, false, true, true, false, false, false, false]

/-- Inner loop of `new_copperhead`: `for ship_col in 0..8`, writing bit
`cells_row * width + left_offset + ship_col + 1` (wrapping `usize`
arithmetic, `left_offset = 32`) with `copperhead[row_offset + ship_col]`. -/
def copperheadCols (width cells_row row_offset : Nat) : Nat → List Bool → Option (List Bool)
  | 0, cs => some cs
  | j + 1, cs =>
    (copperheadCols width cells_row row_offset j cs).bind fun cs2 =>
      setBit cs2 ((cells_row * width + 32 + j + 1) % 2 ^ 32)
        (copperhead.getD (row_offset + j) false)

/-- Outer loop of `new_copperhead`:
`for cells_row in top_offset + 1..=top_offset + copperhead.len() / 8`,
i.e. `cells_row = 33, …, 44` with `ship_row = cells_row - 33`. -/
def copperheadRows (width : Nat) : Nat → List Bool → Option (List Bool)
  | 0, cs => some cs
  | i + 1, cs =>
    (copperheadRows width i cs).bind fun cs2 =>
      copperheadCols width (33 + i) (i * 8) 8 cs2

/-- `pub fn new_copperhead(width: u32, height: u32) -> Universe`: an
all-dead grid with the copperhead ship stamped at offset (33, 33);
`none` when a stamped flat index falls outside the bit array (panic). -/
def new_copperhead (width height : Nat) : Option Universe :=
  (copperheadRows width 12 (List.replicate ((width * height) % 2 ^ 32) false)).map
    fun cs => { width := width, height := height, cells := cs }

/-- One `u32` block of `FixedBitSet::as_slice()`: bits `32*b … 32*b+31`
packed little-endian. -/
def blockVal (cells : List Bool) (b : Nat) : Nat :=
  (List.range 32).foldl (fun acc j => acc + cond (cells.getD (32 * b + j) false) (2 ^ j) 0) 0

/-- `FixedBitSet::as_slice()`: the `⌈len/32⌉` backing `u32` blocks. -/
def blocks (u : Universe) : List Nat :=
  (List.range ((u.cells.length + 31) / 32)).map (blockVal u.cells)

/-- Structural worker for `chunksOf`; the fuel is the list length, enough
because each step drops at least one element (given `n > 0`). -/
def chunksOfGo (n : Nat) : Nat → List Nat → List (List Nat)
  | 0, _ => []
  | _, [] => []
  | fuel + 1, x :: xs => (x :: xs).take n :: chunksOfGo n fuel ((x :: xs).drop n)

/-- `slice::chunks(n)`: chunks of `n`, last one possibly shorter.  Rust
panics on `n = 0`; that case is unreachable below and returns `[]`. -/
def chunksOf (n : Nat) (l : List Nat) : List (List Nat) :=
  if n = 0 then [] else chunksOfGo n l.length l

/-- The row structure of `impl fmt::Display for Universe`:
`self.cells.as_slice().chunks(self.width as usize)` — each "line" is a run
of `width` *blocks* (32 cells each), not a run of `width` cells. -/
def renderRows (u : Universe) : List (List Nat) :=
  chunksOf u.width (blocks u)

/-- `pub fn render(&self) -> String`, via the `Display` implementation:
one symbol per nonzero/zero block, a newline after each chunk. -/
def render (u : Universe) : String :=
  String.join ((u.renderRows).map fun line =>
    String.mk (line.map fun cell => if cell ≠ 0 then '◼' else '◻') ++ "\n")

/-- `pub fn set_width(&mut self, width: u32)`: new all-dead bit array of
(wrapping) size `width * self.height`. -/
def set_width (u : Universe) (width : Nat) : Universe :=
  { u with width := width, cells := List.replicate ((width * u.height) % 2 ^ 32) false }

/-- `pub fn set_height(&mut self, height: u32)`: new all-dead bit array of
(wrapping) size `self.width * height`. -/
def set_height (u : Universe) (height : Nat) : Universe :=
  { u with height := height, cells := List.replicate ((u.width * height) % 2 ^ 32) false }

/-- `pub fn toggle_cell(&mut self, row: u32, col: u32)`: unchecked flat
index, then `FixedBitSet::toggle` (panics out of bounds). -/
def toggle_cell (u : Universe) (row col : Nat) : Option Universe :=
  (toggleBit u.cells (u.get_index row col)).map fun cs => { u with cells := cs }

/-- `pub fn set_cells(&mut self, cells: &[(i32, i32)])`: for each pair in
order, wrap via `get_index_signed` and set the bit alive. -/
def set_cells (u : Universe) : List (Int × Int) → Option Universe
  | [] => some u
  | (row, col) :: rest =>
    (u.get_index_signed row col).bind fun idx =>
      (setBit u.cells idx true).bind fun cs =>
        set_cells { u with cells := cs } rest

/-- `pub fn draw_glider(&mut self, center_row: u32, center_col: u32)`:
the five glider offsets around the (i32-cast) center.  `wrap32s` models the
`i32` arithmetic on each coordinate; it is the identity in range. -/
def draw_glider (u : Universe) (center_row center_col : Nat) : Option Universe :=
  let row : Int := wrap32s (center_row : Int)
  let col : Int := wrap32s (center_col : Int)
  let f : Int → Int → Int × Int := fun a b => (wrap32s a, wrap32s b)
  u.set_cells
    [f row col, f (row - 1) (col - 1), f row (col + 1), f (row + 1) col,
     f (row + 1) (col - 1)]

/-- `pub fn draw_pulsar(&mut self, center_row: u32, center_col: u32)`:
the 48 pulsar offsets around the (i32-cast) center. -/
def draw_pulsar (u : Universe) (center_row center_col : Nat) : Option Universe :=
  let row : Int := wrap32s (center_row : Int)
  let col : Int := wrap32s (center_col : Int)
  let f : Int → Int → Int × Int := fun a b => (wrap32s a, wrap32s b)
  u.set_cells
    [f (row - 6) (col - 4), f (row - 6) (col - 3), f (row - 6) (col - 2),
     f (row - 6) (col + 4), f (row - 6) (col + 3), f (row - 6) (col + 2),
     f (row - 4) (col - 6), f (row - 4) (col - 1), f (row - 4) (col + 1), f (row - 4) (col + 6),
     f (row - 3) (col - 6), f (row - 3) (col - 1), f (row - 3) (col + 1), f (row - 3) (col + 6),
     f (row - 2) (col - 6), f (row - 2) (col - 1), f (row - 2) (col + 1), f (row - 2) (col + 6),
     f (row - 1) (col - 4), f (row - 1) (col - 3), f (row - 1) (col - 2),
     f (row - 1) (col + 4), f (row - 1) (col + 3), f (row - 1) (col + 2),
     f (row + 1) (col - 4), f (row + 1) (col - 3), f (row + 1) (col - 2),
     f (row + 1) (col + 4), f (row + 1) (col + 3), f (row + 1) (col + 2),
     f (row + 2) (col - 6), f (row + 2) (col - 1), f (row + 2) (col + 1), f (row + 2) (col + 6),
     f (row + 3) (col - 6), f (row + 3) (col - 1), f (row + 3) (col + 1), f (row + 3) (col + 6),
     f (row + 4) (col - 6), f (row + 4) (col - 1), f (row + 4) (col + 1), f (row + 4) (col + 6),
     f (row + 6) (col - 4), f (row + 6) (col - 3), f (row + 6) (col - 2),
     f (row + 6) (col + 4), f (row + 6) (col + 3), f (row + 6) (col + 2)]

/-! Specification-side definitions (from the spec's words, for comparison
with the code-derived definitions above). -/

/-- The cell of the grid at a (already in-bounds) coordinate, row-major. -/
def cellAt (u : Universe) (row col : Nat) : Bool :=
  u.cells.getD (row * u.width + col) false

/-- Toroidal decrement on one axis: "row 0's north neighbor is `height-1`". -/
def wrapDec (v dim : Nat) : Nat := (v + dim - 1) % dim

/-- Toroidal increment on one axis. -/
def wrapInc (v dim : Nat) : Nat := (v + 1) % dim

/-- The 8 toroidally adjacent coordinates of a cell, in the order
NW, N, NE, W, E, SW, S, SE. -/
def specNeighbors (u : Universe) (row col : Nat) : List (Nat × Nat) :=
  [(wrapDec row u.height, wrapDec col u.width),
   (wrapDec row u.height, col),
   (wrapDec row u.height, wrapInc col u.width),
   (row, wrapDec col u.width),
   (row, wrapInc col u.width),
   (wrapInc row u.height, wrapDec col u.width),
   (wrapInc row u.height, col),
   (wrapInc row u.height, wrapInc col u.width)]

/-- Spec-side wrapped flat index: floored modulo on each axis (`Int.emod`
is floored modulo for a positive modulus), then `row * width + col`. -/
def wIdx (u : Universe) (row col : Int) : Nat :=
  (row % (u.height : Int)).toNat * u.width + (col % (u.width : Int)).toNat

/-- The intended value of cell `i` after a tick: the rule applied to the
pre-tick state and pre-tick neighbor count of cell `(i / width, i % width)`. -/
def tgt (u : Universe) (i : Nat) : Bool :=
  next_state (u.cells.getD i false) (u.live_neighbor_count (i / u.width) (i % u.width))

end Universe

/-! ## Helper lemmas -/

namespace Universe

theorem setBit_length {cs cs2 : List Bool} {i : Nat} {v : Bool}
    (h : setBit cs i v = some cs2) : cs2.length = cs.length := by
  unfold setBit at h
  split at h
  · cases h; simp
  · cases h

theorem setBit_of_lt {cs : List Bool} {i : Nat} (v : Bool) (h : i < cs.length) :
    setBit cs i v = some (cs.set i v) := by
  unfold setBit
  simp [h]

theorem getD_set_of_lt {cs : List Bool} {i : Nat} (j : Nat) (v : Bool) (h : i < cs.length) :
    (cs.set i v).getD j false = if j = i then v else cs.getD j false := by
  by_cases hji : j = i
  · subst hji
    simp [List.getD_eq_getElem?_getD, List.getElem?_set_self h]
  · have hij : i ≠ j := fun hc => hji hc.symm
    simp [List.getD_eq_getElem?_getD, List.getElem?_set_ne hij, hji]

theorem set_getD_self {cs : List Bool} {i : Nat} (h : i < cs.length) :
    cs.set i (cs.getD i false) = cs := by
  apply List.ext_getElem?
  intro n
  rw [List.getElem?_set]
  by_cases hin : i = n
  · subst hin
    simp [h, List.getD_eq_getElem?_getD, List.getElem?_eq_getElem h]
  · simp [hin]

theorem flat_lt {row col w h : Nat} (hr : row < h) (hc : col < w) :
    row * w + col < w * h := by
  have h1 : (row + 1) * w = row * w + w := Nat.succ_mul row w
  have h2 : (row + 1) * w ≤ h * w := Nat.mul_le_mul_right w hr
  have h3 : h * w = w * h := Nat.mul_comm h w
  omega

theorem get_index_eq {u : Universe} {row col : Nat} (hr : row < u.height)
    (hc : col < u.width) (hsize : u.width * u.height < 2 ^ 32) :
    u.get_index row col = row * u.width + col := by
  unfold get_index
  have := flat_lt hr hc
  omega

end Universe

namespace Universe

theorem tgt_flat {u : Universe} {row col : Nat} (hc : col < u.width) :
    tgt u (row * u.width + col) =
      next_state (u.cells.getD (row * u.width + col) false)
        (u.live_neighbor_count row col) := by
  unfold tgt
  have hw : 0 < u.width := by omega
  have hdiv : (row * u.width + col) / u.width = row := by
    rw [Nat.mul_comm row u.width, Nat.mul_add_div hw, Nat.div_eq_of_lt hc]
    omega
  have hmod : (row * u.width + col) % u.width = col := by
    rw [Nat.mul_comm row u.width, Nat.mul_add_mod]
    exact Nat.mod_eq_of_lt hc
  rw [hdiv, hmod]

theorem tickCols_spec {u : Universe} {row : Nat} (hr : row < u.height)
    (hsize : u.width * u.height < 2 ^ 32) :
    ∀ j, j ≤ u.width → ∀ cs : List Bool, cs.length = u.width * u.height →
      ∃ cs2, u.tickCols row j cs = some cs2 ∧ cs2.length = u.width * u.height ∧
        ∀ i, cs2.getD i false =
          if row * u.width ≤ i ∧ i < row * u.width + j then tgt u i
          else cs.getD i false := by
  intro j
  induction j with
  | zero =>
    intro _ cs hcs
    refine ⟨cs, rfl, hcs, fun i => ?_⟩
    rw [if_neg (by omega)]
  | succ j ih =>
    intro hj cs hcs
    obtain ⟨cs1, h1, hlen1, hget1⟩ := ih (Nat.le_of_succ_le hj) cs hcs
    have hjw : j < u.width := hj
    have hidx : u.get_index row j = row * u.width + j := get_index_eq hr hjw hsize
    have hfl2 : row * u.width + j < cs1.length := by
      have := flat_lt hr hjw
      omega
    have hset : u.tickCell cs1 row j =
        some (cs1.set (row * u.width + j) (tgt u (row * u.width + j))) := by
      unfold tickCell
      rw [hidx, ← tgt_flat hjw]
      exact setBit_of_lt _ hfl2
    refine ⟨cs1.set (row * u.width + j) (tgt u (row * u.width + j)), ?_, ?_, ?_⟩
    · show u.tickCols row (j + 1) cs = _
      unfold tickCols
      rw [h1]
      simpa using hset
    · simpa using hlen1
    · intro i
      rw [getD_set_of_lt _ _ hfl2, hget1 i]
      by_cases hi : i = row * u.width + j
      · subst hi
        rw [if_pos rfl, if_pos (by omega)]
      · rw [if_neg hi]
        by_cases hcj : row * u.width ≤ i ∧ i < row * u.width + j
        · rw [if_pos hcj, if_pos (by omega)]
        · rw [if_neg hcj, if_neg (by omega)]

theorem tickRows_spec {u : Universe} (hsize : u.width * u.height < 2 ^ 32) :
    ∀ k, k ≤ u.height → ∀ cs : List Bool, cs.length = u.width * u.height →
      ∃ cs2, u.tickRows k cs = some cs2 ∧ cs2.length = u.width * u.height ∧
        ∀ i, cs2.getD i false =
          if i < k * u.width then tgt u i else cs.getD i false := by
  intro k
  induction k with
  | zero =>
    intro _ cs hcs
    refine ⟨cs, rfl, hcs, fun i => ?_⟩
    rw [if_neg (by omega)]
  | succ k ih =>
    intro hk cs hcs
    obtain ⟨cs1, h1, hlen1, hget1⟩ := ih (Nat.le_of_succ_le hk) cs hcs
    have hkh : k < u.height := hk
    obtain ⟨cs2, h2, hlen2, hget2⟩ :=
      tickCols_spec hkh hsize u.width (Nat.le_refl _) cs1 hlen1
    refine ⟨cs2, ?_, hlen2, ?_⟩
    · show u.tickRows (k + 1) cs = _
      unfold tickRows
      rw [h1]
      simpa using h2
    · intro i
      rw [hget2 i, hget1 i]
      have hsm : (k + 1) * u.width = k * u.width + u.width := Nat.succ_mul k u.width
      by_cases ha : k * u.width ≤ i ∧ i < k * u.width + u.width
      · rw [if_pos ha, if_pos (by omega)]
      · rw [if_neg ha]
        by_cases hb : i < k * u.width
        · rw [if_pos hb, if_pos (by omega)]
        · rw [if_neg hb, if_neg (by omega)]

theorem tick_spec {u : Universe} (hsize : u.width * u.height < 2 ^ 32)
    (hlen : u.cells.length = u.width * u.height) :
    ∃ u2, u.tick = some u2 ∧ u2.width = u.width ∧ u2.height = u.height ∧
      u2.cells.length = u.cells.length ∧
      ∀ row col, row < u.height → col < u.width →
        u2.cells.getD (row * u.width + col) false =
          next_state (u.cells.getD (row * u.width + col) false)
            (u.live_neighbor_count row col) := by
  obtain ⟨cs2, h1, hlen2, hget⟩ := tickRows_spec hsize u.height (Nat.le_refl _) u.cells hlen
  refine ⟨{ u with cells := cs2 }, ?_, rfl, rfl, by simpa [hlen] using hlen2, ?_⟩
  · unfold tick
    rw [h1]
    rfl
  · intro row col hr hc
    have hflat : row * u.width + col < u.height * u.width := by
      have h1 := flat_lt hr hc
      have h2 : u.height * u.width = u.width * u.height := Nat.mul_comm _ _
      omega
    show cs2.getD (row * u.width + col) false = _
    rw [hget, if_pos hflat, tgt_flat hc]

end Universe

namespace Universe

/-- The B3/S23 transition rule as the specification phrases it, relating the
pre-tick universe `u` and post-tick universe `u2` at cell `(row, col)`:
underpopulation, survival, overpopulation, reproduction, and the default
case, with the neighbor count taken on the pre-tick grid. -/
def LifeRuleSpec (u u2 : Universe) (row col : Nat) : Prop :=
  let n := u.live_neighbor_count row col
  let pre := u.cells.getD (row * u.width + col) false
  let post := u2.cells.getD (row * u.width + col) false
  (pre = true → n < 2 → post = false) ∧
  (pre = true → n = 2 ∨ n = 3 → post = true) ∧
  (pre = true → 3 < n → post = false) ∧
  (pre = false → n = 3 → post = true) ∧
  (pre = false → n ≠ 3 → post = false)

theorem next_state_char (b : Bool) (n : Nat) :
    next_state b n = if b then decide (n = 2 ∨ n = 3) else decide (n = 3) := by
  rcases b with _ | _
  · by_cases h : n = 3 <;> simp [next_state, h]
  · rcases n with _ | _ | _ | _ | n
    · decide
    · decide
    · decide
    · decide
    · have h1 : ¬(n + 4 < 2) := by omega
      have h2 : ¬(n + 4 = 2 ∨ n + 4 = 3) := by omega
      have h3 : 3 < n + 4 := by omega
      simp [next_state, h1, h2, h3]

end Universe

/-- C1: for a universe with positive dimensions (the grid invariant holding
and the cell count in `u32` range), `tick` succeeds and every cell's
post-tick state is the B3/S23 rule applied to its pre-tick state and
pre-tick live-neighbor count. -/
theorem tick_follows_life_rule (u : Universe) (row col : Nat)
    (hw : 0 < u.width) (hh : 0 < u.height)
    (hrow : row < u.height) (hcol : col < u.width)
    (hsize : u.width * u.height < 2 ^ 32)
    (hlen : u.cells.length = u.width * u.height) :
    ∃ u2, u.tick = some u2 ∧ Universe.LifeRuleSpec u u2 row col := by
  obtain ⟨u2, ht, hwid, hhei, hlen2, hget⟩ := Universe.tick_spec hsize hlen
  have hq := hget row col hrow hcol
  refine ⟨u2, ht, ?_, ?_, ?_, ?_, ?_⟩
  · intro h1 h2
    rw [hq, h1, Universe.next_state_char]
    have hno : ¬(u.live_neighbor_count row col = 2 ∨
        u.live_neighbor_count row col = 3) := by omega
    simp [hno]
  · intro h1 h2
    rw [hq, h1, Universe.next_state_char]
    rcases h2 with h | h <;> simp [h]
  · intro h1 h2
    rw [hq, h1, Universe.next_state_char]
    have hno : ¬(u.live_neighbor_count row col = 2 ∨
        u.live_neighbor_count row col = 3) := by omega
    simp [hno]
  · intro h1 h2
    rw [hq, h1, Universe.next_state_char]
    simp [h2]
  · intro h1 h2
    rw [hq, h1, Universe.next_state_char]
    simp [h2]

/-- A 3×3 universe holding a horizontal blinker in its top row. -/
def uBlinker : Universe :=
  ⟨3, 3, [true, true, true, false, false, false, false, false, false]⟩

theorem tick_follows_life_rule_witness :
    ∃ u2, uBlinker.tick = some u2 ∧ Universe.LifeRuleSpec uBlinker u2 1 1 :=
  tick_follows_life_rule uBlinker 1 1 (by decide) (by decide) (by decide)
    (by decide) (by decide) (by decide)

namespace Universe

theorem wrapDec_eq {v dim : Nat} (hv : v < dim) (hdim : dim < 2 ^ 32) :
    (if v = 0 then (dim + (2 ^ 32 - 1)) % 2 ^ 32 else v - 1) = wrapDec v dim := by
  unfold wrapDec
  rcases v with _ | v
  · rw [if_pos rfl]
    have h1 : (dim + (2 ^ 32 - 1)) % 2 ^ 32 = dim - 1 := by omega
    have h2 : (0 + dim - 1) % dim = dim - 1 := by
      rw [Nat.mod_eq_of_lt (by omega : 0 + dim - 1 < dim)]
      omega
    omega
  · rw [if_neg (by omega)]
    have h1 : v + 1 + dim - 1 = v + dim := by omega
    rw [h1, Nat.add_mod_right, Nat.mod_eq_of_lt (by omega)]
    omega

theorem wrapInc_eq {v dim : Nat} (hv : v < dim) (hdim : dim < 2 ^ 32) :
    (if v = (dim + (2 ^ 32 - 1)) % 2 ^ 32 then 0 else (v + 1) % 2 ^ 32) =
      wrapInc v dim := by
  unfold wrapInc
  have hd1 : (dim + (2 ^ 32 - 1)) % 2 ^ 32 = dim - 1 := by omega
  rw [hd1]
  by_cases hv1 : v = dim - 1
  · rw [if_pos hv1, hv1]
    have h2 : dim - 1 + 1 = dim := by omega
    rw [h2, Nat.mod_self]
  · rw [if_neg hv1]
    have hlt : v + 1 < dim := by omega
    rw [Nat.mod_eq_of_lt hlt]
    omega

end Universe

/-- C2: for an in-bounds cell of a universe whose cell count fits in `u32`,
`live_neighbor_count` equals the number of live cells among the 8 toroidally
adjacent cells (wrapping each axis to the opposite edge), and is at most 8. -/
theorem live_neighbor_count_toroidal (u : Universe) (row col : Nat)
    (hrow : row < u.height) (hcol : col < u.width)
    (hsize : u.width * u.height < 2 ^ 32) :
    u.live_neighbor_count row col =
      (u.specNeighbors row col).countP (fun p => u.cellAt p.1 p.2) ∧
    u.live_neighbor_count row col ≤ 8 := by
  have hh : 0 < u.height := by omega
  have hw : 0 < u.width := by omega
  have h32h : u.height < 2 ^ 32 := by
    have := Nat.le_mul_of_pos_left u.height hw
    omega
  have h32w : u.width < 2 ^ 32 := by
    have h1 : u.width * 1 ≤ u.width * u.height := Nat.mul_le_mul_left u.width hh
    omega
  have hN := Universe.wrapDec_eq hrow h32h
  have hS := Universe.wrapInc_eq hrow h32h
  have hW := Universe.wrapDec_eq hcol h32w
  have hE := Universe.wrapInc_eq hcol h32w
  have hNlt : Universe.wrapDec row u.height < u.height := Nat.mod_lt _ hh
  have hSlt : Universe.wrapInc row u.height < u.height := Nat.mod_lt _ hh
  have hWlt : Universe.wrapDec col u.width < u.width := Nat.mod_lt _ hw
  have hElt : Universe.wrapInc col u.width < u.width := Nat.mod_lt _ hw
  have heq : u.live_neighbor_count row col =
      (u.specNeighbors row col).countP (fun p => u.cellAt p.1 p.2) := by
    simp only [Universe.live_neighbor_count, Universe.specNeighbors, Universe.cellAt,
      List.countP_cons, List.countP_nil]
    rw [hN, hS, hW, hE]
    rw [Universe.get_index_eq hNlt hWlt hsize, Universe.get_index_eq hNlt hcol hsize,
      Universe.get_index_eq hNlt hElt hsize, Universe.get_index_eq hrow hWlt hsize,
      Universe.get_index_eq hrow hElt hsize, Universe.get_index_eq hSlt hWlt hsize,
      Universe.get_index_eq hSlt hcol hsize, Universe.get_index_eq hSlt hElt hsize]
    simp only [Bool.cond_eq_if]
    omega
  refine ⟨heq, ?_⟩
  rw [heq]
  exact le_trans (List.countP_le_length _) (by simp [Universe.specNeighbors])

/-- Witness for C2, also checking the spec's toroidal-wrap example: on a
3×3 grid whose only live cell is (0,0), cell (2,2) has exactly one live
neighbor. -/
theorem live_neighbor_count_toroidal_witness :
    (Universe.live_neighbor_count
        ⟨3, 3, [true, false, false, false, false, false, false, false, false]⟩ 2 2 =
      (Universe.specNeighbors
          ⟨3, 3, [true, false, false, false, false, false, false, false, false]⟩ 2 2).countP
        (fun p =>
          Universe.cellAt
            ⟨3, 3, [true, false, false, false, false, false, false, false, false]⟩ p.1 p.2) ∧
      Universe.live_neighbor_count
        ⟨3, 3, [true, false, false, false, false, false, false, false, false]⟩ 2 2 ≤ 8) ∧
    Universe.live_neighbor_count
      ⟨3, 3, [true, false, false, false, false, false, false, false, false]⟩ 2 2 = 1 :=
  ⟨live_neighbor_count_toroidal
      ⟨3, 3, [true, false, false, false, false, false, false, false, false]⟩ 2 2
      (by decide) (by decide) (by decide),
    by decide⟩

namespace Universe

theorem wrap32s_id {x : Int} (h1 : -(2 ^ 31) ≤ x) (h2 : x < 2 ^ 31) :
    wrap32s x = x := by
  unfold wrap32s
  omega

theorem tmod_lower (a : Int) {d : Int} (hd : 0 < d) : -d < a.tmod d := by
  rcases le_or_lt 0 a with ha | ha
  · have := Int.tmod_nonneg d ha
    omega
  · have hneg : (-a).tmod d = -(a.tmod d) := by
      rw [Int.tmod_def, Int.tmod_def, Int.neg_tdiv]
      ring
    have h2 : (-a).tmod d < d := Int.tmod_lt_of_pos _ hd
    omega

theorem tmod_norm (a : Int) {d : Int} (hd : 0 < d) :
    (a.tmod d + d).tmod d = a % d := by
  have hlow := tmod_lower a hd
  have hup := Int.tmod_lt_of_pos a hd
  have hnn : 0 ≤ a.tmod d + d := by omega
  rw [Int.tmod_eq_emod hnn (le_of_lt hd)]
  have h1 : (a.tmod d + d) % d = a.tmod d % d := by
    have := Int.add_mul_emod_self_left (a.tmod d) d 1
    simpa using this
  rw [h1]
  conv_rhs => rw [← Int.tmod_add_tdiv a d]
  rw [Int.add_mul_emod_self_left]

theorem get_index_signed_eq (u : Universe) (row col : Int)
    (hw : 0 < u.width) (hh : 0 < u.height)
    (hsmall : u.width * u.height ≤ 2 ^ 30) :
    u.get_index_signed row col = some (u.wIdx row col) ∧
      u.wIdx row col < u.width * u.height := by
  have hhle : u.height ≤ 2 ^ 30 :=
    le_trans (Nat.le_mul_of_pos_left u.height hw) hsmall
  have hwle : u.width ≤ 2 ^ 30 := by
    have h1 : u.width * 1 ≤ u.width * u.height := Nat.mul_le_mul_left u.width hh
    omega
  have hdh : (0 : Int) < (u.height : Int) := by omega
  have hdw : (0 : Int) < (u.width : Int) := by omega
  have hch : wrap32s (u.height : Int) = (u.height : Int) :=
    wrap32s_id (by omega) (by omega)
  have hcw : wrap32s (u.width : Int) = (u.width : Int) :=
    wrap32s_id (by omega) (by omega)
  have hrl := tmod_lower row hdh
  have hru := Int.tmod_lt_of_pos row hdh
  have hcl := tmod_lower col hdw
  have hcu := Int.tmod_lt_of_pos col hdw
  have hwr : wrap32s (Int.tmod row (u.height : Int) + (u.height : Int)) =
      Int.tmod row (u.height : Int) + (u.height : Int) :=
    wrap32s_id (by omega) (by omega)
  have hwc : wrap32s (Int.tmod col (u.width : Int) + (u.width : Int)) =
      Int.tmod col (u.width : Int) + (u.width : Int) :=
    wrap32s_id (by omega) (by omega)
  have hnr := tmod_norm row hdh
  have hnc := tmod_norm col hdw
  have hrnn := Int.emod_nonneg row (ne_of_gt hdh)
  have hrlt := Int.emod_lt_of_pos row hdh
  have hcnn := Int.emod_nonneg col (ne_of_gt hdw)
  have hclt := Int.emod_lt_of_pos col hdw
  have hrn : (row % (u.height : Int)).toNat < u.height := by omega
  have hcn : (col % (u.width : Int)).toNat < u.width := by omega
  constructor
  · simp only [get_index_signed]
    rw [hch, hcw, if_neg (by push_neg ; omega)]
    rw [hwr, hwc, hnr, hnc]
    have hm1 : row % (u.height : Int) % 2 ^ 32 = row % (u.height : Int) := by omega
    have hm2 : col % (u.width : Int) % 2 ^ 32 = col % (u.width : Int) := by omega
    rw [hm1, hm2, get_index_eq hrn hcn (by omega)]
    rfl
  · have := flat_lt hrn hcn
    simpa [wIdx] using this

end Universe

/-- C4: for arbitrary signed coordinates on a universe with positive
dimensions (total size small enough that the `i32` and `u32` arithmetic
cannot overflow), `get_index_signed` normalizes each axis by the floored
modulo `((v % dim) + dim) % dim` and returns the flat index
`row * width + col` of the normalized pair, which is always in bounds. -/
theorem get_index_signed_floored_mod (u : Universe) (row col : Int)
    (hw : 0 < u.width) (hh : 0 < u.height)
    (hsmall : u.width * u.height ≤ 2 ^ 30) :
    ∃ i, u.get_index_signed row col = some i ∧
      i = ((row % (u.height : Int) + (u.height : Int)) % (u.height : Int)).toNat * u.width +
          ((col % (u.width : Int) + (u.width : Int)) % (u.width : Int)).toNat ∧
      i < u.width * u.height := by
  obtain ⟨h1, h2⟩ := Universe.get_index_signed_eq u row col hw hh hsmall
  refine ⟨u.wIdx row col, h1, ?_, h2⟩
  have e1 : (row % (u.height : Int) + (u.height : Int)) % (u.height : Int) =
      row % (u.height : Int) := by
    have := Int.add_mul_emod_self_left (row % (u.height : Int)) (u.height : Int) 1
    simpa [Int.emod_emod] using this
  have e2 : (col % (u.width : Int) + (u.width : Int)) % (u.width : Int) =
      col % (u.width : Int) := by
    have := Int.add_mul_emod_self_left (col % (u.width : Int)) (u.width : Int) 1
    simpa [Int.emod_emod] using this
  rw [e1, e2]
  rfl

theorem get_index_signed_floored_mod_witness :
    ∃ i, Universe.get_index_signed ⟨5, 4, List.replicate 20 false⟩ (-7) 13 = some i ∧
      i = (((-7 : Int) % (4 : Int) + 4) % 4).toNat * 5 + (((13 : Int) % (5 : Int) + 5) % 5).toNat ∧
      i < 5 * 4 := by
  have h := get_index_signed_floored_mod ⟨5, 4, List.replicate 20 false⟩ (-7) 13
    (by decide) (by decide) (by norm_num)
  simpa using h

namespace Universe

theorem set_cells_spec :
    ∀ (l : List (Int × Int)) (u : Universe),
      0 < u.width → 0 < u.height → u.width * u.height ≤ 2 ^ 30 →
      u.cells.length = u.width * u.height →
      ∃ u2, u.set_cells l = some u2 ∧ u2.width = u.width ∧ u2.height = u.height ∧
        u2.cells.length = u.cells.length ∧
        ∀ i, u2.cells.getD i false =
          if ∃ p ∈ l, u.wIdx p.1 p.2 = i then true else u.cells.getD i false := by
  intro l
  induction l with
  | nil =>
    intro u hw hh hs hl
    refine ⟨u, rfl, rfl, rfl, rfl, fun i => ?_⟩
    simp
  | cons p rest ih =>
    obtain ⟨r, c⟩ := p
    intro u hw hh hs hl
    obtain ⟨hq, hbound⟩ := get_index_signed_eq u r c hw hh hs
    have hlt : u.wIdx r c < u.cells.length := by omega
    have hset := setBit_of_lt true hlt
    obtain ⟨u2, hrec, hw2, hh2, hlen2, hget2⟩ :=
      ih { u with cells := u.cells.set (u.wIdx r c) true }
        hw hh hs (by simpa using hl)
    have hwidx : ∀ a b,
        ({ u with cells := u.cells.set (u.wIdx r c) true } : Universe).wIdx a b =
          u.wIdx a b := fun _ _ => rfl
    simp only [hwidx] at hget2
    refine ⟨u2, ?_, hw2, hh2, by simpa using hlen2, fun i => ?_⟩
    · simp only [set_cells, hq, Option.some_bind, hset]
      exact hrec
    · rw [hget2 i]
      have hu1 : ({ u with cells := u.cells.set (u.wIdx r c) true } : Universe).cells.getD
          i false = if i = u.wIdx r c then true else u.cells.getD i false :=
        getD_set_of_lt i true hlt
      rw [hu1]
      by_cases hA : ∃ p ∈ rest, u.wIdx p.1 p.2 = i
      · obtain ⟨p, hp, hpi⟩ := hA
        rw [if_pos ⟨p, hp, hpi⟩, if_pos ⟨p, List.mem_cons_of_mem _ hp, hpi⟩]
      · rw [if_neg hA]
        by_cases hB : i = u.wIdx r c
        · rw [if_pos hB, if_pos ⟨(r, c), List.mem_cons_self _ _, hB.symm⟩]
        · rw [if_neg hB, if_neg ?_]
          rintro ⟨p, hp, hpi⟩
          rcases List.mem_cons.mp hp with hpc | hpr
          · exact hB (by rw [hpc] at hpi; exact hpi.symm)
          · exact hA ⟨p, hpr, hpi⟩

end Universe

/-- C9: on a universe with positive dimensions (invariant holding, size in
the no-overflow range), `set_cells` succeeds, sets every listed pair's
toroidally wrapped cell alive, leaves every other index untouched, and in
particular never turns a live cell dead. -/
theorem set_cells_frame (u : Universe) (l : List (Int × Int))
    (hw : 0 < u.width) (hh : 0 < u.height)
    (hsmall : u.width * u.height ≤ 2 ^ 30)
    (hlen : u.cells.length = u.width * u.height) :
    ∃ u2, u.set_cells l = some u2 ∧ u2.width = u.width ∧ u2.height = u.height ∧
      (∀ p ∈ l, u2.cells.getD (u.wIdx p.1 p.2) false = true) ∧
      (∀ i, (∀ p ∈ l, u.wIdx p.1 p.2 ≠ i) →
        u2.cells.getD i false = u.cells.getD i false) ∧
      (∀ i, u.cells.getD i false = true → u2.cells.getD i false = true) := by
  obtain ⟨u2, h1, h2, h3, _, h5⟩ := Universe.set_cells_spec l u hw hh hsmall hlen
  refine ⟨u2, h1, h2, h3, ?_, ?_, ?_⟩
  · intro p hp
    rw [h5 (u.wIdx p.1 p.2), if_pos ⟨p, hp, rfl⟩]
  · intro i hni
    rw [h5 i, if_neg ?_]
    rintro ⟨p, hp, hpi⟩
    exact hni p hp hpi
  · intro i hi
    rw [h5 i]
    by_cases hc : ∃ p ∈ l, u.wIdx p.1 p.2 = i
    · rw [if_pos hc]
    · rw [if_neg hc]
      exact hi

/-- A 4×4 universe whose only live cell is index 0. -/
def uFrame : Universe := ⟨4, 4, true :: List.replicate 15 false⟩

theorem set_cells_frame_witness :
    ∃ u2, uFrame.set_cells [(1, 2), (-1, -1)] = some u2 ∧
      u2.width = uFrame.width ∧ u2.height = uFrame.height ∧
      (∀ p ∈ [((1 : Int), (2 : Int)), (-1, -1)],
        u2.cells.getD (uFrame.wIdx p.1 p.2) false = true) ∧
      (∀ i, (∀ p ∈ [((1 : Int), (2 : Int)), (-1, -1)], uFrame.wIdx p.1 p.2 ≠ i) →
        u2.cells.getD i false = uFrame.cells.getD i false) ∧
      (∀ i, uFrame.cells.getD i false = true → u2.cells.getD i false = true) :=
  set_cells_frame uFrame [(1, 2), (-1, -1)] (by decide) (by decide)
    (by decide) (by decide)

/-- C5 counterexample: on the zero-width universe produced by `new(0, 3)`,
`set_cells` with a single pair fails (the `i32` remainder by a zero
dimension panics), so pattern stamping does not succeed on *every*
universe. -/
theorem set_cells_zero_width_panics :
    Universe.set_cells (Universe.new 0 3 (fun _ => false)) [(0, 0)] = none := by
  decide

/-- C5 amended: on every universe with *positive* width and height (grid
invariant holding and size small enough that index arithmetic cannot
overflow), `set_cells` — and therefore `draw_glider` and `draw_pulsar` —
completes without error for every list of signed coordinates; on a
zero-dimension universe stamping panics instead. -/
theorem set_cells_pos_dims_total (u : Universe) (l : List (Int × Int))
    (hw : 0 < u.width) (hh : 0 < u.height)
    (hsmall : u.width * u.height ≤ 2 ^ 30)
    (hlen : u.cells.length = u.width * u.height) :
    (∃ u2, u.set_cells l = some u2) ∧
    (∀ r c, ∃ g, u.draw_glider r c = some g) ∧
    (∀ r c, ∃ q, u.draw_pulsar r c = some q) := by
  refine ⟨?_, ?_, ?_⟩
  · obtain ⟨u2, h1, _⟩ := Universe.set_cells_spec l u hw hh hsmall hlen
    exact ⟨u2, h1⟩
  · intro r c
    simp only [Universe.draw_glider]
    obtain ⟨u2, h1, _⟩ := Universe.set_cells_spec _ u hw hh hsmall hlen
    exact ⟨u2, h1⟩
  · intro r c
    simp only [Universe.draw_pulsar]
    obtain ⟨u2, h1, _⟩ := Universe.set_cells_spec _ u hw hh hsmall hlen
    exact ⟨u2, h1⟩

/-- An 8×8 all-dead universe. -/
def uDead8 : Universe := ⟨8, 8, List.replicate 64 false⟩

theorem set_cells_pos_dims_total_witness :
    (∃ u2, uDead8.set_cells [(0, 0)] = some u2) ∧
    (∀ r c, ∃ g, uDead8.draw_glider r c = some g) ∧
    (∀ r c, ∃ q, uDead8.draw_pulsar r c = some q) :=
  set_cells_pos_dims_total uDead8 [(0, 0)] (by decide) (by decide)
    (by decide) (by decide)

namespace Universe

theorem tickRows_id (u : Universe) (hw : u.width = 0) :
    ∀ k cs, u.tickRows k cs = some cs := by
  intro k
  induction k with
  | zero => intro cs; rfl
  | succ k ih =>
    intro cs
    show (u.tickRows k cs).bind _ = some cs
    rw [ih cs, Option.some_bind, hw]
    rfl

theorem tick_zero_dim (u : Universe) (hz : u.width = 0 ∨ u.height = 0) :
    u.tick = some u := by
  rcases hz with hw | hh
  · unfold tick
    rw [tickRows_id u hw]
    rfl
  · have h0 : u.tickRows u.height u.cells = some u.cells := by
      rw [hh]
      rfl
    unfold tick
    rw [h0]
    rfl

theorem toggle_cell_empty (u : Universe) (hlen : u.cells.length = 0) (row col : Nat) :
    u.toggle_cell row col = none := by
  unfold toggle_cell toggleBit
  rw [if_neg (by omega)]
  rfl

theorem set_cells_zero_dim (u : Universe) (hz : u.width = 0 ∨ u.height = 0)
    (p : Int × Int) (l : List (Int × Int)) : u.set_cells (p :: l) = none := by
  obtain ⟨r, c⟩ := p
  show (u.get_index_signed r c).bind _ = none
  have hgs : u.get_index_signed r c = none := by
    simp only [get_index_signed]
    rcases hz with hw | hh
    · rw [hw, if_pos (Or.inr (by decide))]
    · rw [hh, if_pos (Or.inl (by decide))]
  rw [hgs]
  rfl

theorem toggle_cell_eq (u : Universe) {row col : Nat}
    (hlt : u.get_index row col < u.cells.length) :
    u.toggle_cell row col =
      some { u with cells := (u.cells.set (u.get_index row col)
        (!(u.cells.getD (u.get_index row col) false))) } := by
  unfold toggle_cell toggleBit
  rw [if_pos hlt]
  rfl

end Universe

/-- C6 counterexample: on the zero-height universe produced by `new(3, 0)`,
`toggle_cell(0, 0)` fails (`FixedBitSet::toggle` panics on the empty bit
array) instead of being a no-op. -/
theorem toggle_cell_zero_dim_panics :
    Universe.toggle_cell (Universe.new 3 0 (fun _ => true)) 0 0 = none := by
  decide

/-- C6 amended: a universe with zero width or height is constructed
successfully as an empty grid and `tick` on it is a no-op, but the per-cell
operations `toggle_cell`, `set_cells` (on a nonempty list), `draw_glider`
and `draw_pulsar` fail (panic) on it rather than acting as no-ops. -/
theorem zero_dim_universe_behavior (u : Universe)
    (hz : u.width = 0 ∨ u.height = 0) (hlen : u.cells.length = 0) :
    (∀ rand, (Universe.new u.width u.height rand).cells = []) ∧
    u.tick = some u ∧
    (∀ row col, u.toggle_cell row col = none) ∧
    (∀ p l, u.set_cells (p :: l) = none) ∧
    (∀ r c, u.draw_glider r c = none) ∧
    (∀ r c, u.draw_pulsar r c = none) := by
  refine ⟨?_, Universe.tick_zero_dim u hz, Universe.toggle_cell_empty u hlen,
    Universe.set_cells_zero_dim u hz, ?_, ?_⟩
  · intro rand
    have hsz : u.width * u.height = 0 := by rcases hz with h | h <;> simp [h]
    simp [Universe.new, hsz]
  · intro r c
    simp only [Universe.draw_glider]
    exact Universe.set_cells_zero_dim u hz _ _
  · intro r c
    simp only [Universe.draw_pulsar]
    exact Universe.set_cells_zero_dim u hz _ _

/-- The degenerate 0×3 universe. -/
def uZero : Universe := ⟨0, 3, []⟩

theorem zero_dim_universe_behavior_witness :
    (∀ rand, (Universe.new uZero.width uZero.height rand).cells = []) ∧
    uZero.tick = some uZero ∧
    (∀ row col, uZero.toggle_cell row col = none) ∧
    (∀ p l, uZero.set_cells (p :: l) = none) ∧
    (∀ r c, uZero.draw_glider r c = none) ∧
    (∀ r c, uZero.draw_pulsar r c = none) :=
  zero_dim_universe_behavior uZero (Or.inl rfl) rfl

/-- C7: `set_width` yields a universe of the new width, the old height, and
all cells dead; `set_height` yields the old width, the new height, and all
cells dead — the resize never preserves prior content. -/
theorem set_width_set_height_destructive (u : Universe) (w2 h2 : Nat) :
    (u.set_width w2).width = w2 ∧ (u.set_width w2).height = u.height ∧
    (∀ b ∈ (u.set_width w2).cells, b = false) ∧
    (u.set_height h2).width = u.width ∧ (u.set_height h2).height = h2 ∧
    (∀ b ∈ (u.set_height h2).cells, b = false) := by
  refine ⟨rfl, rfl, ?_, rfl, rfl, ?_⟩ <;>
    · intro b hb
      simp only [Universe.set_width, Universe.set_height] at hb
      exact List.eq_of_mem_replicate hb

/-- C10: toggling an in-bounds cell succeeds, flips exactly the bit at flat
index `row * width + col` leaving the dimensions and every other cell
unchanged, and toggling it again restores exactly the original universe. -/
theorem toggle_cell_involution (u : Universe) (row col : Nat)
    (hrow : row < u.height) (hcol : col < u.width)
    (hsize : u.width * u.height < 2 ^ 32)
    (hlen : u.cells.length = u.width * u.height) :
    ∃ u1, u.toggle_cell row col = some u1 ∧
      u1.width = u.width ∧ u1.height = u.height ∧
      u1.cells.getD (row * u.width + col) false =
        !(u.cells.getD (row * u.width + col) false) ∧
      (∀ i, i ≠ row * u.width + col →
        u1.cells.getD i false = u.cells.getD i false) ∧
      u1.toggle_cell row col = some u := by
  have hidx : u.get_index row col = row * u.width + col :=
    Universe.get_index_eq hrow hcol hsize
  have hflat := Universe.flat_lt hrow hcol
  have hlt : u.get_index row col < u.cells.length := by omega
  refine ⟨{ u with cells := (u.cells.set (u.get_index row col)
      (!(u.cells.getD (u.get_index row col) false))) },
    Universe.toggle_cell_eq u hlt, rfl, rfl, ?_, ?_, ?_⟩
  · show (u.cells.set _ _).getD _ false = _
    rw [Universe.getD_set_of_lt _ _ hlt, if_pos hidx.symm, hidx]
  · intro i hi
    show (u.cells.set _ _).getD i false = _
    rw [Universe.getD_set_of_lt _ _ hlt, if_neg (by rw [hidx]; exact hi)]
  · have hlt1 : ({ u with cells := (u.cells.set (u.get_index row col)
        (!(u.cells.getD (u.get_index row col) false))) } : Universe).get_index row col <
        ({ u with cells := (u.cells.set (u.get_index row col)
          (!(u.cells.getD (u.get_index row col) false))) } : Universe).cells.length := by
      simpa using hlt
    rw [Universe.toggle_cell_eq _ hlt1]
    congr 1
    show { u with cells := ((u.cells.set (u.get_index row col)
        (!(u.cells.getD (u.get_index row col) false))).set (u.get_index row col)
        (!((u.cells.set (u.get_index row col)
          (!(u.cells.getD (u.get_index row col) false))).getD (u.get_index row col) false))) } = u
    have e1 : (u.cells.set (u.get_index row col)
        (!(u.cells.getD (u.get_index row col) false))).getD (u.get_index row col) false =
        !(u.cells.getD (u.get_index row col) false) := by
      rw [Universe.getD_set_of_lt _ _ hlt, if_pos rfl]
    rw [e1, Bool.not_not, List.set_set, Universe.set_getD_self hlt]

theorem toggle_cell_involution_witness :
    ∃ u1, Universe.toggle_cell ⟨2, 2, [false, true, false, false]⟩ 1 0 = some u1 ∧
      u1.width = 2 ∧ u1.height = 2 ∧
      u1.cells.getD (1 * 2 + 0) false =
        !((⟨2, 2, [false, true, false, false]⟩ : Universe).cells.getD (1 * 2 + 0) false) ∧
      (∀ i, i ≠ 1 * 2 + 0 →
        u1.cells.getD i false =
          (⟨2, 2, [false, true, false, false]⟩ : Universe).cells.getD i false) ∧
      u1.toggle_cell 1 0 = some ⟨2, 2, [false, true, false, false]⟩ :=
  toggle_cell_involution ⟨2, 2, [false, true, false, false]⟩ 1 0
    (by decide) (by decide) (by decide) (by decide)

namespace Universe

theorem toggleBit_length {cs cs2 : List Bool} {idx : Nat}
    (h : toggleBit cs idx = some cs2) : cs2.length = cs.length := by
  unfold toggleBit at h
  split at h
  · cases h; simp
  · cases h

theorem tickCell_len {u : Universe} {cs cs2 : List Bool} {row col : Nat}
    (h : u.tickCell cs row col = some cs2) : cs2.length = cs.length :=
  setBit_length h

theorem tickCols_len {u : Universe} {row : Nat} :
    ∀ {j : Nat} {cs cs2 : List Bool},
      u.tickCols row j cs = some cs2 → cs2.length = cs.length := by
  intro j
  induction j with
  | zero => intro cs cs2 h; cases h; rfl
  | succ j ih =>
    intro cs cs2 h
    simp only [tickCols] at h
    cases hx : u.tickCols row j cs with
    | none => rw [hx] at h; simp at h
    | some cs1 =>
      rw [hx] at h
      simp only [Option.some_bind] at h
      have h1 := tickCell_len h
      have h2 := ih hx
      omega

theorem tickRows_len {u : Universe} :
    ∀ {k : Nat} {cs cs2 : List Bool},
      u.tickRows k cs = some cs2 → cs2.length = cs.length := by
  intro k
  induction k with
  | zero => intro cs cs2 h; cases h; rfl
  | succ k ih =>
    intro cs cs2 h
    simp only [tickRows] at h
    cases hx : u.tickRows k cs with
    | none => rw [hx] at h; simp at h
    | some cs1 =>
      rw [hx] at h
      simp only [Option.some_bind] at h
      have h1 := tickCols_len h
      have h2 := ih hx
      omega

theorem tick_pres {u u2 : Universe} (h : u.tick = some u2) :
    u2.width = u.width ∧ u2.height = u.height ∧
      u2.cells.length = u.cells.length := by
  unfold tick at h
  cases hx : u.tickRows u.height u.cells with
  | none => rw [hx] at h; simp at h
  | some cs =>
    rw [hx] at h
    cases h
    exact ⟨rfl, rfl, tickRows_len hx⟩

theorem set_cells_pres : ∀ (l : List (Int × Int)) (u u2 : Universe),
    u.set_cells l = some u2 →
    u2.width = u.width ∧ u2.height = u.height ∧
      u2.cells.length = u.cells.length := by
  intro l
  induction l with
  | nil => intro u u2 h; cases h; exact ⟨rfl, rfl, rfl⟩
  | cons p rest ih =>
    obtain ⟨r, c⟩ := p
    intro u u2 h
    simp only [set_cells] at h
    cases hg : u.get_index_signed r c with
    | none => rw [hg] at h; simp at h
    | some idx =>
      rw [hg] at h
      simp only [Option.some_bind] at h
      cases hs : setBit u.cells idx true with
      | none => rw [hs] at h; simp at h
      | some cs =>
        rw [hs] at h
        simp only [Option.some_bind] at h
        obtain ⟨h1, h2, h3⟩ := ih _ _ h
        have hL := setBit_length hs
        refine ⟨by simpa using h1, by simpa using h2, ?_⟩
        simp only at h3
        omega

theorem copperheadCols_len {width cells_row row_offset : Nat} :
    ∀ {j : Nat} {cs cs2 : List Bool},
      copperheadCols width cells_row row_offset j cs = some cs2 →
      cs2.length = cs.length := by
  intro j
  induction j with
  | zero => intro cs cs2 h; cases h; rfl
  | succ j ih =>
    intro cs cs2 h
    simp only [copperheadCols] at h
    cases hx : copperheadCols width cells_row row_offset j cs with
    | none => rw [hx] at h; simp at h
    | some cs1 =>
      rw [hx] at h
      simp only [Option.some_bind] at h
      have h1 := setBit_length h
      have h2 := ih hx
      omega

theorem copperheadRows_len {width : Nat} :
    ∀ {k : Nat} {cs cs2 : List Bool},
      copperheadRows width k cs = some cs2 → cs2.length = cs.length := by
  intro k
  induction k with
  | zero => intro cs cs2 h; cases h; rfl
  | succ k ih =>
    intro cs cs2 h
    simp only [copperheadRows] at h
    cases hx : copperheadRows width k cs with
    | none => rw [hx] at h; simp at h
    | some cs1 =>
      rw [hx] at h
      simp only [Option.some_bind] at h
      have h1 := copperheadCols_len h
      have h2 := ih hx
      omega

end Universe

/-- C3: the `Display`-based `render` does not produce `height` rows of
`width` symbols.  On the 3×3 grid with one live cell, the 9 cells occupy a
single `u32` block of `FixedBitSet::as_slice()`, and chunking that block
list by `width` yields one row containing one (block) symbol: `render`
emits the single-symbol line `"◼\n"`, not three rows of three symbols. -/
theorem render_grid_shape_bug :
    (Universe.renderRows
        ⟨3, 3, [true, false, false, false, false, false, false, false, false]⟩).length = 1 ∧
    (⟨3, 3, [true, false, false, false, false, false, false, false, false]⟩ :
        Universe).height = 3 ∧
    Universe.renderRows
        ⟨3, 3, [true, false, false, false, false, false, false, false, false]⟩ = [[1]] ∧
    Universe.render
        ⟨3, 3, [true, false, false, false, false, false, false, false, false]⟩ = "◼\n" := by
  decide

/-- C8: `cells.len() == width * height` (as natural numbers, requiring the
`u32` product not to overflow) holds after `new` and `new_copperhead` and is
preserved by `tick`, `toggle_cell`, `set_cells`, `draw_glider`,
`draw_pulsar`, and re-established for the new dimensions by `set_width` and
`set_height`. -/
theorem cells_length_invariant :
    (∀ w h rand, w * h < 2 ^ 32 →
      (Universe.new w h rand).cells.length =
        (Universe.new w h rand).width * (Universe.new w h rand).height) ∧
    (∀ w h u2, w * h < 2 ^ 32 → Universe.new_copperhead w h = some u2 →
      u2.cells.length = u2.width * u2.height) ∧
    (∀ u u2 : Universe, u.tick = some u2 →
      u.cells.length = u.width * u.height →
      u2.cells.length = u2.width * u2.height) ∧
    (∀ (u u2 : Universe) row col, u.toggle_cell row col = some u2 →
      u.cells.length = u.width * u.height →
      u2.cells.length = u2.width * u2.height) ∧
    (∀ (u : Universe) l u2, u.set_cells l = some u2 →
      u.cells.length = u.width * u.height →
      u2.cells.length = u2.width * u2.height) ∧
    (∀ (u : Universe) r c u2, u.draw_glider r c = some u2 →
      u.cells.length = u.width * u.height →
      u2.cells.length = u2.width * u2.height) ∧
    (∀ (u : Universe) r c u2, u.draw_pulsar r c = some u2 →
      u.cells.length = u.width * u.height →
      u2.cells.length = u2.width * u2.height) ∧
    (∀ (u : Universe) w2, w2 * u.height < 2 ^ 32 →
      (u.set_width w2).cells.length =
        (u.set_width w2).width * (u.set_width w2).height) ∧
    (∀ (u : Universe) h2, u.width * h2 < 2 ^ 32 →
      (u.set_height h2).cells.length =
        (u.set_height h2).width * (u.set_height h2).height) := by
  refine ⟨?_, ?_, ?_, ?_, ?_, ?_, ?_, ?_, ?_⟩
  · intro w h rand hs
    simp [Universe.new]
    omega
  · intro w h u2 hs h2
    unfold Universe.new_copperhead at h2
    cases hx : Universe.copperheadRows w 12
        (List.replicate ((w * h) % 2 ^ 32) false) with
    | none => rw [hx] at h2; simp at h2
    | some cs =>
      rw [hx] at h2
      cases h2
      have hL := Universe.copperheadRows_len hx
      simp only [List.length_replicate] at hL
      simp only [hL]
      omega
  · intro u u2 ht hinv
    obtain ⟨h1, h2, h3⟩ := Universe.tick_pres ht
    rw [h1, h2, h3, hinv]
  · intro u u2 row col ht hinv
    unfold Universe.toggle_cell at ht
    cases hx : toggleBit u.cells (u.get_index row col) with
    | none => rw [hx] at ht; simp at ht
    | some cs =>
      rw [hx] at ht
      cases ht
      have hL := Universe.toggleBit_length hx
      simpa [hL] using hinv
  · intro u l u2 ht hinv
    obtain ⟨h1, h2, h3⟩ := Universe.set_cells_pres l u u2 ht
    rw [h1, h2, h3, hinv]
  · intro u r c u2 ht hinv
    simp only [Universe.draw_glider] at ht
    obtain ⟨h1, h2, h3⟩ := Universe.set_cells_pres _ u u2 ht
    rw [h1, h2, h3, hinv]
  · intro u r c u2 ht hinv
    simp only [Universe.draw_pulsar] at ht
    obtain ⟨h1, h2, h3⟩ := Universe.set_cells_pres _ u u2 ht
    rw [h1, h2, h3, hinv]
  · intro u w2 hs
    simp [Universe.set_width]
    omega
  · intro u h2 hs
    simp [Universe.set_height]
    omega

theorem cells_length_invariant_witness :
    (Universe.new 6 7 (fun _ => true)).cells.length =
      (Universe.new 6 7 (fun _ => true)).width *
        (Universe.new 6 7 (fun _ => true)).height ∧
    (Universe.set_width ⟨4, 4, List.replicate 16 false⟩ 5).cells.length =
      (Universe.set_width ⟨4, 4, List.replicate 16 false⟩ 5).width *
        (Universe.set_width ⟨4, 4, List.replicate 16 false⟩ 5).height :=
  ⟨cells_length_invariant.1 6 7 (fun _ => true) (by norm_num),
    cells_length_invariant.2.2.2.2.2.2.2.1 ⟨4, 4, List.replicate 16 false⟩ 5
      (by norm_num)⟩
